import Mathlib

/-!
# Verification of the Amazon search-agent toolkit (`amazon_tools.py`)

Shallow embedding of the extraction-and-ranking core of the repository:

* `fetch_search_results` — bounded-retry HTTP fetcher (modelled over a list of
  per-attempt outcomes, since the network is external);
* `parse_amazon_results` — the title-deduplication step of the extractor
  (modelled from the per-container record list onward; the HTML tree walk is
  `BeautifulSoup` library territory and no claim depends on it);
* `clean_turkish_price` — Turkish price-string cleaning;
* `parse_delivery_date` — Turkish delivery-date parsing, including a faithful
  model of the backtracking behaviour of the Python regular expression
  `(\d+).+?([a-zA-Z es letters]+)` used there;
* `weighted_product_ranking` — the weight-normalising, min-max-scoring,
  top-3-selecting ranker.

Python floats are modelled as exact rationals (`ℚ`); `np.log1p` is a
transcendental function, so the ranker is parameterised by an arbitrary
function `log1p : ℕ → ℚ` standing for it — no claim below depends on the
values of the logarithm, only on how the ranker uses them.
-/

namespace AmazonAgent

/-! ## Product records

One row of the hand-off CSV (`products_table.csv`), as written by
`parse_amazon_results` and read back by `weighted_product_ranking`:
columns Title, Price, Rating, Number of Reviews, Delivery Date, Link.
`Rating` is the value after `pd.to_numeric(errors = coerce)`: a number or
missing (`N/A` strings coerce to missing, then `fillna(0)` applies). -/
structure ProductRecord where
  title : String
  price : String
  rating : Option ℚ
  reviews : ℕ
  delivery : String
  link : String
  deriving Repr, DecidableEq

/-! ## String primitives

Python string operations on character lists.  (The embedding avoids the
core `String.replace` and `String.trim`, which are defined by
well-founded recursion and therefore do not evaluate inside the kernel;
the list versions below are structurally recursive and faithful to
Python `str.replace` — all leftmost non-overlapping occurrences — and
`str.strip`.) -/

/-- Does `pat` occur at the head of the list? -/
def isPrefixList : List Char → List Char → Bool
  | [], _ => true
  | _ :: _, [] => false
  | p :: ps, c :: cs => p == c && isPrefixList ps cs

/-- Replacement worker, fuelled by the input length so that recursion is
structural (each step consumes at least one character). -/
def replaceFuel (pat rep : List Char) : ℕ → List Char → List Char
  | 0, s => s
  | _, [] => []
  | fuel + 1, c :: cs =>
    if isPrefixList pat (c :: cs) then
      rep ++ replaceFuel pat rep fuel (cs.drop (pat.length - 1))
    else
      c :: replaceFuel pat rep fuel cs

/-- Python `str.replace`: replace every leftmost non-overlapping
occurrence of `pat` by `rep` (the patterns this program uses are never
empty). -/
def replaceList (pat rep s : List Char) : List Char :=
  if pat.isEmpty then s else replaceFuel pat rep s.length s

/-- Python `str.strip()`: drop whitespace from both ends. -/
def pyStrip (s : List Char) : List Char :=
  ((s.dropWhile Char.isWhitespace).reverse.dropWhile Char.isWhitespace).reverse

/-! ## Price cleaning (`clean_turkish_price`, amazon_tools.py lines 187-200) -/

/-- The value of one ASCII digit character. -/
def digitVal (c : Char) : ℕ :=
  match c with
  | '0' => 0
  | '1' => 1
  | '2' => 2
  | '3' => 3
  | '4' => 4
  | '5' => 5
  | '6' => 6
  | '7' => 7
  | '8' => 8
  | '9' => 9
  | _ => 0

/-- Digits of a numeral, most significant first, to a natural number. -/
def digitsToNat (l : List Char) : ℕ :=
  l.foldl (fun n c => 10 * n + digitVal c) 0

/-- `10 ^ n` on `ℚ`, structurally (so that the kernel evaluates it). -/
def pow10 : ℕ → ℚ
  | 0 => 1
  | n + 1 => 10 * pow10 n

/-- Exponent application: `m * 10 ^ e` with a signed exponent. -/
def applyExp (m : ℚ) (e : ℤ) : ℚ :=
  if 0 ≤ e then m * pow10 e.toNat else m / pow10 (-e).toNat

/-- Mantissa + fraction + exponent to a rational. -/
def floatVal (neg : Bool) (ip fp : List Char) (e : ℤ) : ℚ :=
  let mag : ℚ := (digitsToNat ip : ℚ) + (digitsToNat fp : ℚ) / pow10 fp.length
  let v := applyExp mag e
  if neg then -v else v

/-- Parse an optional decimal exponent suffix (`e`/`E`, optional sign, digits);
returns the exponent and requires the whole remainder to be consumed. -/
def parseExpPart : List Char → Option ℤ
  | [] => some 0
  | c :: rest =>
    if c = 'e' ∨ c = 'E' then
      match rest with
      | [] => none
      | d :: ds =>
        if d = '-' then
          if ds ≠ [] ∧ ds.all Char.isDigit then some (-(digitsToNat ds : ℤ)) else none
        else if d = '+' then
          if ds ≠ [] ∧ ds.all Char.isDigit then some (digitsToNat ds : ℤ) else none
        else if (d :: ds).all Char.isDigit then some (digitsToNat (d :: ds) : ℤ)
        else none
    else none

/-- Model of Python `float(s)` on the strings this program can produce:
optional sign, then `digits`, `digits.digits`, `digits.` or `.digits`,
then an optional exponent part.  Python additionally accepts `inf`,
`infinity` and `nan` (any case) and underscore digit separators; `inf` is
not representable in `ℚ` and `nan` is removed by the subsequent
`dropna`, identically to a parse failure, so the model maps all of these
to `none`. -/
def pyFloat (s : List Char) : Option ℚ :=
  match s with
  | [] => none
  | l =>
    let (neg, l₁) :=
      match l with
      | '-' :: r => (true, r)
      | '+' :: r => (false, r)
      | r => (false, r)
    let ip := l₁.takeWhile Char.isDigit
    let r₁ := l₁.drop ip.length
    match r₁ with
    | '.' :: r₂ =>
      let fp := r₂.takeWhile Char.isDigit
      let r₃ := r₂.drop fp.length
      if ip = [] ∧ fp = [] then none
      else (parseExpPart r₃).map (floatVal neg ip fp)
    | r₂ =>
      if ip = [] then none
      else (parseExpPart r₂).map (floatVal neg ip [] ·)

/-- `clean_turkish_price` (amazon_tools.py lines 187-200): remove `TL` and
`tl`, strip surrounding whitespace, delete `.` thousands separators, turn
the decimal comma into a dot, and parse as a float.  A missing cell
(`pd.isna`) and a parse failure both end as a row with no usable price
(the code returns `NaN`, which the caller's `dropna` removes), so both
are `none` here. -/
def clean_turkish_price (price : String) : Option ℚ :=
  let s := pyStrip (replaceList ['t', 'l'] [] (replaceList ['T', 'L'] [] price.toList))
  let s := replaceList ['.'] [] s
  let s := replaceList [','] ['.'] s
  pyFloat s

/-! ## Delivery-date parsing (`parse_delivery_date`, amazon_tools.py lines 203-227)

The code runs `re.search` with the pattern `(\d+).+?([a-zA-ZĞğÜüŞşİıÖö]+)`
over the stripped delivery string.  The model below reproduces the
backtracking search of CPython `re`:

* `re.search` tries each start position from the left; a match must begin
  with `\d+`, which greedily takes the maximal digit run from that
  position, backtracking to shorter runs only if the rest fails;
* `.+?` lazily consumes at least one character (`.` matches anything
  except a newline), stopping at the first position from which
  `([letters]+)` can match;
* `([letters]+)` greedily takes the maximal run of letters of the class.

Python `\d` matches any Unicode decimal digit; the model restricts to the
ASCII digits, which covers every string this pipeline produces. -/

/-- The character class `[a-zA-ZĞğÜüŞşİıÖö]` of the delivery-date pattern. -/
def isTrLetter (c : Char) : Bool :=
  c.isAlpha || ['Ğ', 'ğ', 'Ü', 'ü', 'Ş', 'ş', 'İ', 'ı', 'Ö', 'ö'].contains c

/-- The lazy `.+?` followed by greedy `([letters]+)`: skip characters (none
may be a newline, which `.` cannot match) until the first letter, then
take the maximal letter run. -/
def seekLetters : List Char → Option (List Char)
  | [] => none
  | c :: rest =>
    if isTrLetter c then some (c :: rest.takeWhile isTrLetter)
    else if c = '\n' then none
    else seekLetters rest

/-- One attempt with a fixed digit group `g`: `.+?` must consume at least
the first character of `region` (any non-newline character, letters
included), then the letter group is sought in the remainder. -/
def attemptWith (g region : List Char) : Option (ℕ × List Char) :=
  match region with
  | [] => none
  | c :: rest =>
    if c = '\n' then none
    else (seekLetters rest).map (fun ls => (digitsToNat g, ls))

/-- Backtracking over the length of the `\d+` group: greedy, so the full
run is tried first, then ever shorter prefixes (each dropped digit is
handed to the `.+?` region). -/
def tryKeep (run after : List Char) : ℕ → Option (ℕ × List Char)
  | 0 => none
  | k + 1 =>
    match attemptWith (run.take (k + 1)) (run.drop (k + 1) ++ after) with
    | some r => some r
    | none => tryKeep run after k

/-- `re.search` for `(\d+).+?([letters]+)`: scan start positions from the
left; a viable start is a digit, from which the maximal digit run is
taken and the continuation tried with backtracking.  Returns the value of
group 1 (as a number) and the characters of group 2. -/
def reSearchDM : List Char → Option (ℕ × List Char)
  | [] => none
  | c :: rest =>
    if c.isDigit then
      match tryKeep (c :: rest.takeWhile Char.isDigit)
          (rest.dropWhile Char.isDigit)
          (c :: rest.takeWhile Char.isDigit).length with
      | some r => some r
      | none => reSearchDM rest
    else reSearchDM rest

/-- Uppercasing of the first character under Python `str.capitalize` for
the characters the letter class admits (ASCII plus the Turkish letters;
Python title-cases without locale, so `ı` goes to `I` and `i` to `I`). -/
def pyUpper1 (c : Char) : Char :=
  match c with
  | 'ğ' => 'Ğ'
  | 'ü' => 'Ü'
  | 'ş' => 'Ş'
  | 'ö' => 'Ö'
  | 'ı' => 'I'
  | _ => c.toUpper

/-- Lowercasing of the remaining characters under Python `str.capitalize`.
Python lowercases `İ` to `i` plus a combining dot (two code points); the
model uses plain `i`, which agrees on membership in the month map since
no month abbreviation contains a combining character. -/
def pyLower1 (c : Char) : Char :=
  match c with
  | 'Ğ' => 'ğ'
  | 'Ü' => 'ü'
  | 'Ş' => 'ş'
  | 'Ö' => 'ö'
  | 'İ' => 'i'
  | _ => c.toLower

/-- Python `str.capitalize`: first character title-cased, the rest
lowercased. -/
def pyCapitalize : List Char → List Char
  | [] => []
  | c :: rest => pyUpper1 c :: rest.map pyLower1

/-- `month_abbr = match.group(2).capitalize()[:3]` (line 221). -/
def cap3 (letters : List Char) : String :=
  String.mk ((pyCapitalize letters).take 3)

/-- The Turkish month-abbreviation dictionary (lines 212-215), as the
lookup function `month_map.get`. -/
def monthMap : String → Option ℕ := fun s =>
  match s with
  | "Oca" => some 1
  | "Şub" => some 2
  | "Mar" => some 3
  | "Nis" => some 4
  | "May" => some 5
  | "Haz" => some 6
  | "Tem" => some 7
  | "Ağu" => some 8
  | "Eyl" => some 9
  | "Eki" => some 10
  | "Kas" => some 11
  | "Ara" => some 12
  | _ => none

/-- `PENALTY_SCORE` (line 207). -/
def PENALTY_SCORE : ℕ := 366

/-- `parse_delivery_date` (lines 203-227): strip the string; the empty
string and the sentinels `nan` / `N/A` get the penalty; otherwise run the
regex search, defaulting an unknown month abbreviation to 12
(`month_map.get(month_abbr, 12)`) and returning
`(month_num - 1) * 31 + day`; no match gets the penalty. -/
def parse_delivery_date (dateVal : String) : ℕ :=
  let dateStr := pyStrip dateVal.toList
  if dateStr = [] ∨ dateStr = "nan".toList ∨ dateStr = "N/A".toList then PENALTY_SCORE
  else
    match reSearchDM dateStr with
    | some (day, letters) => ((monthMap (cap3 letters)).getD 12 - 1) * 31 + day
    | none => PENALTY_SCORE

/-! ## Fetcher (`fetch_search_results`, amazon_tools.py lines 34-72)

The network is external: the model takes the outcome of each HTTP attempt
as data.  An attempt either completes with a status code or raises a
transport exception (which the code catches and prints). -/

/-- Outcome of one HTTP GET attempt. -/
inductive AttemptOutcome where
  | status (code : ℕ)
  | exn
  deriving Repr, DecidableEq

/-- The loop body succeeds only on `response.status_code == 200`
(line 66); any other status and any caught exception fall through to the
next attempt. -/
def attemptSucceeds : AttemptOutcome → Bool
  | .status code => code == 200
  | .exn => false

/-- The message returned on success (line 69); the page text itself goes
to the side-effect file, not to the caller. -/
def fetchSuccessMsg : String :=
  "Success: HTML content saved to \x27last_search.html\x27. You can now parse it."

/-- The message returned when the loop ends without a success (line 72). -/
def fetchFailMsg : String := "Error: Failed to retrieve data after multiple attempts."

/-- The retry loop over a list of attempt outcomes: return the success
message on the first attempt with status 200, the single fixed failure
message when the list is exhausted. -/
def fetchLoop : List AttemptOutcome → Except String String
  | [] => .error fetchFailMsg
  | o :: rest => if attemptSucceeds o then .ok fetchSuccessMsg else fetchLoop rest

/-- `fetch_search_results` (lines 34-72): `for attempt in range(3)`, so
exactly the three given attempt outcomes are consulted in order. -/
def fetch_search_results (o₀ o₁ o₂ : AttemptOutcome) : Except String String :=
  fetchLoop [o₀, o₁, o₂]

/-! ## Extractor deduplication (`parse_amazon_results`, lines 147-149)

The walk of the HTML tree is `BeautifulSoup` library code; the model
starts from the per-container records it yields (one `ProductRecord` per
`s-search-result` container, fields already defaulted to their
sentinels).  On a non-empty record list the code runs
`df.drop_duplicates(subset = [Title])`, which keeps the first occurrence
of each title in document order. -/

/-- `drop_duplicates(subset = [Title])` with the default `keep = first`:
a record is kept exactly when its title has not been seen before. -/
def dedupTitles (seen : List String) : List ProductRecord → List ProductRecord
  | [] => []
  | r :: rest =>
    if r.title ∈ seen then dedupTitles seen rest
    else r :: dedupTitles (r.title :: seen) rest

/-- `parse_amazon_results` from the parsed containers onward: the
deduplicated record sequence written to the hand-off CSV. -/
def parse_amazon_results (items : List ProductRecord) : List ProductRecord :=
  dedupTitles [] items

/-! ## Ranker (`weighted_product_ranking`, amazon_tools.py lines 162-271) -/

/-- The caller's weight dictionary.  The four recognised criterion names
are fields; `others` is the summed value of any unrecognised keys, which
`sum(weights.values())` (line 174) includes in the normalising total even
though `weights.get` (lines 261-264) never reads them. -/
structure Weights where
  price : ℚ
  rating : ℚ
  reviews : ℚ
  delivery : ℚ
  others : ℚ
  deriving Repr, DecidableEq

/-- `total_w = sum(weights.values())` (line 174). -/
def totalW (w : Weights) : ℚ :=
  w.price + w.rating + w.reviews + w.delivery + w.others

/-- Multiply every entry of the dictionary by a constant. -/
def scaleW (c : ℚ) (w : Weights) : Weights :=
  ⟨c * w.price, c * w.rating, c * w.reviews, c * w.delivery, c * w.others⟩

/-- Weight normalisation (lines 174-176): divide each entry by the total
when the total is positive, otherwise leave the dictionary untouched. -/
def normalizeW (w : Weights) : Weights :=
  if 0 < totalW w then scaleW (1 / totalW w) w else w

/-- `epsilon = 1e-9` (line 241), as the exact rational the literal
denotes (the nearest double differs only beyond the 16th digit and no
claim is sensitive to it). -/
def eps : ℚ := 1 / 1000000000

/-- Minimum of a column; the empty case never feeds a row computation. -/
def minQ : List ℚ → ℚ
  | [] => 0
  | x :: xs => xs.foldl min x

/-- Maximum of a column. -/
def maxQ : List ℚ → ℚ
  | [] => 0
  | x :: xs => xs.foldl max x

/-- `df.dropna(subset = [Price])` after `clean_turkish_price` (lines
229-230): the surviving rows, each with its cleaned price. -/
def survPairs (rs : List ProductRecord) : List (ProductRecord × ℚ) :=
  rs.filterMap (fun r => (clean_turkish_price r.price).map (fun q => (r, q)))

/-- `pd.to_numeric(errors = coerce).fillna(0)` on the Rating column
(lines 234-237): a missing or unparseable rating becomes 0. -/
def ratingVal (r : ProductRecord) : ℚ := r.rating.getD 0

/-- The per-column aggregates of lines 245-257, computed over the
surviving rows. -/
structure Agg where
  pmin : ℚ
  pmax : ℚ
  dmin : ℚ
  dmax : ℚ
  rmin : ℚ
  rmax : ℚ
  vmin : ℚ
  vmax : ℚ
  deriving Repr, DecidableEq

/-- Column minima and maxima over the surviving rows (`log1p` stands for
`np.log1p`). -/
def mkAgg (log1p : ℕ → ℚ) (surv : List (ProductRecord × ℚ)) : Agg :=
  { pmin := minQ (surv.map (fun p => p.2))
    pmax := maxQ (surv.map (fun p => p.2))
    dmin := minQ (surv.map (fun p => (parse_delivery_date p.1.delivery : ℚ)))
    dmax := maxQ (surv.map (fun p => (parse_delivery_date p.1.delivery : ℚ)))
    rmin := minQ (surv.map (fun p => ratingVal p.1))
    rmax := maxQ (surv.map (fun p => ratingVal p.1))
    vmin := minQ (surv.map (fun p => log1p p.1.reviews))
    vmax := maxQ (surv.map (fun p => log1p p.1.reviews)) }

/-- One row of the ranked DataFrame: the hand-off columns, the cleaned
price, and the derived columns of lines 232-265. -/
structure ScoredRow where
  title : String
  price : ℚ
  rating : ℚ
  reviews : ℕ
  link : String
  delivery : String
  deliveryScore : ℕ
  nPrice : ℚ
  nDelivery : ℚ
  nRating : ℚ
  nReviews : ℚ
  finalScore : ℚ
  deriving Repr, DecidableEq

/-- Lines 245-265 for one surviving row: the four epsilon-guarded min-max
normalisations (price and delivery inverted) and the weighted sum
`Final_Score`, in the order of line 260. -/
def scoreRow (w : Weights) (log1p : ℕ → ℚ) (a : Agg) (p : ProductRecord × ℚ) : ScoredRow :=
  let dv : ℚ := (parse_delivery_date p.1.delivery : ℚ)
  let nP := (a.pmax - p.2) / (a.pmax - a.pmin + eps)
  let nD := (a.dmax - dv) / (a.dmax - a.dmin + eps)
  let nR := (ratingVal p.1 - a.rmin) / (a.rmax - a.rmin + eps)
  let nV := (log1p p.1.reviews - a.vmin) / (a.vmax - a.vmin + eps)
  { title := p.1.title
    price := p.2
    rating := ratingVal p.1
    reviews := p.1.reviews
    link := p.1.link
    delivery := p.1.delivery
    deliveryScore := parse_delivery_date p.1.delivery
    nPrice := nP
    nDelivery := nD
    nRating := nR
    nReviews := nV
    finalScore := nP * w.price + nR * w.rating + nV * w.reviews + nD * w.delivery }

/-- The scored rows of the DataFrame: clean and filter, then normalise
and score every surviving row against the column aggregates. -/
def rankRows (w : Weights) (log1p : ℕ → ℚ) (rs : List ProductRecord) : List ScoredRow :=
  let surv := survPairs rs
  surv.map (scoreRow w log1p (mkAgg log1p surv))

/-- Stable ascending insertion by `Final_Score`: a row moves past exactly
the rows with strictly smaller score, so equal scores keep their
relative order. -/
def insertAsc (x : ScoredRow) : List ScoredRow → List ScoredRow
  | [] => [x]
  | y :: ys =>
    if y.finalScore < x.finalScore then y :: insertAsc x ys
    else x :: y :: ys

/-- Stable ascending insertion sort by `Final_Score`.  `numpy`'s
`quicksort` argsort, which `sort_values` uses by default, runs a stable
insertion sort for arrays up to 15 elements (its small-array cutoff);
the model adopts that behaviour. -/
def sortAsc : List ScoredRow → List ScoredRow
  | [] => []
  | x :: xs => insertAsc x (sortAsc xs)

/-- `df.sort_values(by = Final_Score, ascending = False)` (line 268):
for a descending sort pandas `nargsort` first reverses the values and
the index array, runs the ascending argsort on the reversed data, and
reverses the resulting indexer again.  With a stable underlying argsort
the two reversals cancel on ties, so rows with equal scores keep their
original input order — a stable descending sort. -/
def sortDesc (rows : List ScoredRow) : List ScoredRow :=
  (sortAsc rows.reverse).reverse

/-- `weighted_product_ranking` (lines 162-271).  The hand-off file is
external state: `none` models a missing `products_table.csv`, and
`some rs` models a present file with the record rows `rs` (`rs = []` is
a headers-only file, for which `df.empty` holds).  On the happy path the
code cleans, filters, scores, sorts descending, and returns the top 3
rows (`head(3)`, line 268). -/
def weighted_product_ranking (w : Weights) (log1p : ℕ → ℚ)
    (input : Option (List ProductRecord)) : Except String (List ScoredRow) :=
  let w' := normalizeW w
  match input with
  | none => .error "Error: Data source file not found."
  | some rs =>
    if rs.isEmpty then .error "Error: DataFrame is empty."
    else .ok ((sortDesc (rankRows w' log1p rs)).take 3)

/-- The default weight dictionary the extractor instructs the agent to
use (line 160): Price 0.4, Rating 0.4, Number of Reviews 0.2, Delivery
Date 0.0. -/
def defaultWeights : Weights := ⟨2/5, 2/5, 1/5, 0, 0⟩

/-! ## Shared lemmas about the sort model -/

theorem insertAsc_perm (x : ScoredRow) (l : List ScoredRow) :
    (insertAsc x l).Perm (x :: l) := by
  induction l with
  | nil => simp [insertAsc]
  | cons y ys ih =>
    by_cases h : y.finalScore < x.finalScore
    · simpa [insertAsc, h] using ((ih.cons y).trans (List.Perm.swap x y ys))
    · simp [insertAsc, h]

theorem sortAsc_perm (l : List ScoredRow) : (sortAsc l).Perm l := by
  induction l with
  | nil => simp [sortAsc]
  | cons x xs ih => exact (insertAsc_perm x (sortAsc xs)).trans (ih.cons x)

theorem insertAsc_pairwise (x : ScoredRow) (l : List ScoredRow)
    (h : l.Pairwise (fun a b => a.finalScore ≤ b.finalScore)) :
    (insertAsc x l).Pairwise (fun a b => a.finalScore ≤ b.finalScore) := by
  induction l with
  | nil => simp [insertAsc]
  | cons y ys ih =>
    rcases List.pairwise_cons.mp h with ⟨hy, hys⟩
    by_cases hlt : y.finalScore < x.finalScore
    · simp only [insertAsc, if_pos hlt]
      refine List.pairwise_cons.mpr ⟨?_, ih hys⟩
      intro b hb
      rcases List.mem_cons.mp ((insertAsc_perm x ys).mem_iff.mp hb) with rfl | hb
      · exact le_of_lt hlt
      · exact hy b hb
    · simp only [insertAsc, if_neg hlt]
      refine List.pairwise_cons.mpr ⟨?_, h⟩
      intro b hb
      have hxy : x.finalScore ≤ y.finalScore := le_of_not_lt hlt
      rcases List.mem_cons.mp hb with rfl | hb
      · exact hxy
      · exact hxy.trans (hy b hb)

theorem sortAsc_pairwise (l : List ScoredRow) :
    (sortAsc l).Pairwise (fun a b => a.finalScore ≤ b.finalScore) := by
  induction l with
  | nil => simp [sortAsc]
  | cons x xs ih => exact insertAsc_pairwise x (sortAsc xs) ih

theorem sortDesc_perm (l : List ScoredRow) : (sortDesc l).Perm l := by
  simpa [sortDesc] using
    ((List.reverse_perm (sortAsc l.reverse)).trans
      ((sortAsc_perm l.reverse).trans (List.reverse_perm l)))

theorem sortDesc_pairwise (l : List ScoredRow) :
    (sortDesc l).Pairwise (fun a b => b.finalScore ≤ a.finalScore) := by
  unfold sortDesc
  exact List.pairwise_reverse.mpr (sortAsc_pairwise l.reverse)

theorem insertAsc_filter_eq (x : ScoredRow) (l : List ScoredRow) (c : ℚ)
    (hx : x.finalScore = c) :
    (insertAsc x l).filter (fun r => decide (r.finalScore = c)) =
      x :: l.filter (fun r => decide (r.finalScore = c)) := by
  induction l with
  | nil => simp [insertAsc, List.filter, hx]
  | cons y ys ih =>
    by_cases hlt : y.finalScore < x.finalScore
    · have hy : ¬ (y.finalScore = c) := by
        intro hyc
        rw [hx] at hlt
        rw [hyc] at hlt
        exact lt_irrefl c hlt
      simp only [insertAsc, if_pos hlt]
      rw [List.filter_cons_of_neg (by simpa using hy), ih,
        List.filter_cons_of_neg (by simpa using hy)]
    · simp only [insertAsc, if_neg hlt]
      rw [List.filter_cons_of_pos (by simpa using hx)]

theorem insertAsc_filter_ne (x : ScoredRow) (l : List ScoredRow) (c : ℚ)
    (hx : x.finalScore ≠ c) :
    (insertAsc x l).filter (fun r => decide (r.finalScore = c)) =
      l.filter (fun r => decide (r.finalScore = c)) := by
  induction l with
  | nil => simp [insertAsc, List.filter, hx]
  | cons y ys ih =>
    by_cases hlt : y.finalScore < x.finalScore
    · simp only [insertAsc, if_pos hlt]
      rw [List.filter_cons, List.filter_cons, ih]
    · simp only [insertAsc, if_neg hlt]
      rw [List.filter_cons_of_neg (by simpa using hx)]

/-- Stability of the ascending sort: the rows of any one score class come
out in their input order. -/
theorem sortAsc_filter (l : List ScoredRow) (c : ℚ) :
    (sortAsc l).filter (fun r => decide (r.finalScore = c)) =
      l.filter (fun r => decide (r.finalScore = c)) := by
  induction l with
  | nil => simp [sortAsc]
  | cons x xs ih =>
    by_cases hx : x.finalScore = c
    · rw [sortAsc, insertAsc_filter_eq x (sortAsc xs) c hx, ih,
        List.filter_cons_of_pos (by simpa using hx)]
    · rw [sortAsc, insertAsc_filter_ne x (sortAsc xs) c hx, ih,
        List.filter_cons_of_neg (by simpa using hx)]

/-- Stability of the descending sort: the pre-reversal before the
ascending argsort and the post-reversal of the indexer cancel on each
score class, so ties come out in their original input order. -/
theorem sortDesc_filter (l : List ScoredRow) (c : ℚ) :
    (sortDesc l).filter (fun r => decide (r.finalScore = c)) =
      l.filter (fun r => decide (r.finalScore = c)) := by
  rw [sortDesc, List.filter_reverse, sortAsc_filter, List.filter_reverse,
    List.reverse_reverse]

/-- Every element of the first three rows of the descending sort scores
at least as high as every element beyond them. -/
theorem sortDesc_take_ge (l : List ScoredRow) (k : ℕ) :
    ∀ a ∈ (sortDesc l).take k, ∀ b ∈ (sortDesc l).drop k,
      b.finalScore ≤ a.finalScore := by
  have h := sortDesc_pairwise l
  rw [← List.take_append_drop k (sortDesc l), List.pairwise_append] at h
  exact h.2.2

/-! ## Shared lemmas about deduplication -/

theorem mem_dedupTitles {r : ProductRecord} {seen : List String}
    {l : List ProductRecord} (h : r ∈ dedupTitles seen l) :
    r ∈ l ∧ r.title ∉ seen := by
  induction l generalizing seen with
  | nil => simp [dedupTitles] at h
  | cons x rest ih =>
    by_cases hx : x.title ∈ seen
    · simp only [dedupTitles, if_pos hx] at h
      obtain ⟨h1, h2⟩ := ih h
      exact ⟨List.mem_cons_of_mem x h1, h2⟩
    · simp only [dedupTitles, if_neg hx] at h
      rcases List.mem_cons.mp h with rfl | h
      · exact ⟨List.mem_cons_self _ _, hx⟩
      · obtain ⟨h1, h2⟩ := ih h
        refine ⟨List.mem_cons_of_mem x h1, fun hs => h2 ?_⟩
        exact List.mem_cons_of_mem _ hs

theorem dedupTitles_pairwise (seen : List String) (l : List ProductRecord) :
    (dedupTitles seen l).Pairwise (fun a b => a.title ≠ b.title) := by
  induction l generalizing seen with
  | nil => simp [dedupTitles]
  | cons x rest ih =>
    by_cases hx : x.title ∈ seen
    · simpa [dedupTitles, hx] using ih seen
    · simp only [dedupTitles, if_neg hx]
      refine List.pairwise_cons.mpr ⟨?_, ih _⟩
      intro b hb heq
      exact (mem_dedupTitles hb).2 (heq ▸ List.mem_cons_self _ _)

theorem dedupTitles_find {r : ProductRecord} {seen : List String}
    {l : List ProductRecord} (h : r ∈ dedupTitles seen l) :
    l.find? (fun x => x.title == r.title) = some r := by
  induction l generalizing seen with
  | nil => simp [dedupTitles] at h
  | cons x rest ih =>
    by_cases hx : x.title ∈ seen
    · simp only [dedupTitles, if_pos hx] at h
      have hne : ¬ ((fun y : ProductRecord => y.title == r.title) x) = true := by
        simp only [beq_iff_eq]
        intro heq
        exact (mem_dedupTitles h).2 (heq ▸ hx)
      rw [List.find?_cons_of_neg (p := fun y => y.title == r.title) (a := x) rest hne]
      exact ih h
    · simp only [dedupTitles, if_neg hx] at h
      rcases List.mem_cons.mp h with rfl | h
      · rw [List.find?_cons_of_pos (p := fun y => y.title == r.title) rest (by simp)]
      · have hne : ¬ ((fun y : ProductRecord => y.title == r.title) x) = true := by
          simp only [beq_iff_eq]
          intro heq
          exact (mem_dedupTitles h).2 (heq ▸ List.mem_cons_self _ _)
        rw [List.find?_cons_of_neg (p := fun y => y.title == r.title) (a := x) rest hne]
        exact ih h

theorem dedupTitles_covers (seen : List String) (l : List ProductRecord) :
    ∀ r ∈ l, r.title ∈ seen ∨ ∃ rr ∈ dedupTitles seen l, rr.title = r.title := by
  induction l generalizing seen with
  | nil => intro r hr; simp at hr
  | cons x rest ih =>
    intro r hr
    by_cases hx : x.title ∈ seen
    · simp only [dedupTitles, if_pos hx]
      rcases List.mem_cons.mp hr with rfl | hr
      · exact Or.inl hx
      · exact ih seen r hr
    · simp only [dedupTitles, if_neg hx]
      rcases List.mem_cons.mp hr with rfl | hr
      · exact Or.inr ⟨_, List.mem_cons_self _ _, rfl⟩
      · rcases ih (x.title :: seen) r hr with hseen | ⟨rr, hrr, hteq⟩
        · rcases List.mem_cons.mp hseen with heq | hseen
          · exact Or.inr ⟨x, List.mem_cons_self _ _, heq.symm⟩
          · exact Or.inl hseen
        · exact Or.inr ⟨rr, List.mem_cons_of_mem _ hrr, hteq⟩

/-! ## Shared concrete sample data (used by witnesses and counterexamples) -/

/-- A concrete stand-in for `np.log1p` where a witness needs one. -/
def qid : ℕ → ℚ := fun n => (n : ℚ)

/-- Sample record A: parseable integer price 200. -/
def recA : ProductRecord := ⟨"A", "200 TL", none, 0, "N/A", "https://x/a"⟩

/-- Sample record B: same fields as A apart from title and link. -/
def recB : ProductRecord := ⟨"B", "200 TL", none, 0, "N/A", "https://x/b"⟩

/-- Sample record C: cheaper price 100. -/
def recC : ProductRecord := ⟨"C", "100 TL", none, 0, "N/A", "https://x/c"⟩

/-- Sample record with an unparseable price and otherwise strong fields. -/
def recNA : ProductRecord := ⟨"D", "N/A", some 5, 99, "15 Oca", "https://x/d"⟩

/-- A duplicate-titled variant of A with different remaining fields. -/
def recA2 : ProductRecord := ⟨"A", "99 TL", some 1, 1, "20 Oca", "https://x/a2"⟩

/-- Another record with an unparseable price. -/
def recBad : ProductRecord := ⟨"E", "fiyat yok", none, 0, "nan", "https://x/e"⟩

/-! ## C7 — extractor deduplication -/

/-- **C7.** For any parsed container sequence, the extractor's output has
no two records with the same title; each output record is the first
record of its title in document order (`find?` from the left); and every
input title is still represented.  (amazon_tools.py lines 147-149,
`drop_duplicates(subset = [Title])`, default `keep = first`.) -/
theorem C7_dedup_keeps_first (items : List ProductRecord) :
    (parse_amazon_results items).Pairwise (fun a b => a.title ≠ b.title)
    ∧ (∀ r ∈ parse_amazon_results items,
        items.find? (fun x => x.title == r.title) = some r)
    ∧ (∀ r ∈ items, ∃ rr ∈ parse_amazon_results items, rr.title = r.title) := by
  refine ⟨dedupTitles_pairwise [] items, ?_, ?_⟩
  · intro r hr
    exact dedupTitles_find hr
  · intro r hr
    rcases dedupTitles_covers [] items r hr with hseen | h
    · exact absurd hseen (List.not_mem_nil _)
    · exact h

/-- Witness for C7: on `[A, B, A2]`, where `A2` repeats the title of `A`
with different fields, the survivor of the duplicated title is `A`, the
first occurrence. -/
theorem C7_dedup_keeps_first_witness :
    [recA, recB, recA2].find? (fun x => x.title == recA.title) = some recA
    ∧ recA ∈ parse_amazon_results [recA, recB, recA2] := by
  have h := C7_dedup_keeps_first [recA, recB, recA2]
  exact ⟨h.2.1 recA (by decide), by decide⟩

/-! ## C4 — fetcher retry and failure reporting -/

/-- **C4 counterexample.**  The claim says the failure reason
distinguishes "exhausted retries" from "non-2xx status"; in the code both
paths fall through to the single fixed message of line 72, so three
transport exceptions and three HTTP 404 responses produce identical
results — nothing is distinguished. -/
theorem C4_counterexample :
    fetch_search_results .exn .exn .exn = .error fetchFailMsg
    ∧ fetch_search_results (.status 404) (.status 404) (.status 404) = .error fetchFailMsg := by
  constructor <;> rfl

/-- **C4 amended.**  The fetcher returns the success result on the first
of its 3 attempts whose status is exactly 200 (lines 66-69); when no
attempt yields status 200 — whether by exception or by non-200 status —
it returns the one fixed failure message of line 72, which does not
distinguish the two cases. -/
theorem C4_first_success_or_fixed_failure (o₀ o₁ o₂ : AttemptOutcome) :
    (attemptSucceeds o₀ = true → fetch_search_results o₀ o₁ o₂ = .ok fetchSuccessMsg)
    ∧ (attemptSucceeds o₀ = false → attemptSucceeds o₁ = true →
        fetch_search_results o₀ o₁ o₂ = .ok fetchSuccessMsg)
    ∧ (attemptSucceeds o₀ = false → attemptSucceeds o₁ = false →
        attemptSucceeds o₂ = true →
        fetch_search_results o₀ o₁ o₂ = .ok fetchSuccessMsg)
    ∧ (attemptSucceeds o₀ = false → attemptSucceeds o₁ = false →
        attemptSucceeds o₂ = false →
        fetch_search_results o₀ o₁ o₂ = .error fetchFailMsg) := by
  refine ⟨?_, ?_, ?_, ?_⟩
  · intro h0
    simp [fetch_search_results, fetchLoop, h0]
  · intro h0 h1
    simp [fetch_search_results, fetchLoop, h0, h1]
  · intro h0 h1 h2
    simp [fetch_search_results, fetchLoop, h0, h1, h2]
  · intro h0 h1 h2
    simp [fetch_search_results, fetchLoop, h0, h1, h2]

/-- Witness for the amended C4: a 500, then an exception, then a 200
succeeds on the third attempt. -/
theorem C4_first_success_or_fixed_failure_witness :
    fetch_search_results (.status 500) .exn (.status 200) = .ok fetchSuccessMsg := by
  exact (C4_first_success_or_fixed_failure (.status 500) .exn (.status 200)).2.2.1
    (by decide) (by decide) (by decide)

/-! ## C1 / C10 — delivery-date scoring -/

/-- Any month number stored in the dictionary lies between 1 and 12. -/
theorem monthMap_bounds (k : String) (m : ℕ) (h : monthMap k = some m) :
    1 ≤ m ∧ m ≤ 12 := by
  unfold monthMap at h
  split at h <;> simp_all <;> omega

/-- The score of a string the regex matched with a recognised month. -/
theorem parse_delivery_date_known (s : String) (day : ℕ) (letters : List Char)
    (m : ℕ)
    (hs : ¬ (pyStrip s.toList = [] ∨ pyStrip s.toList = "nan".toList
      ∨ pyStrip s.toList = "N/A".toList))
    (hre : reSearchDM (pyStrip s.toList) = some (day, letters))
    (hm : monthMap (cap3 letters) = some m) :
    parse_delivery_date s = (m - 1) * 31 + day := by
  unfold parse_delivery_date
  rw [if_neg hs, hre]
  change ((monthMap (cap3 letters)).getD 12 - 1) * 31 + day = _
  rw [hm, Option.getD_some]

/-- **C1 counterexample.**  `"31 Ara"` (31 December) parses successfully
to the ordinal `(12 - 1) * 31 + 31 = 372`, and the 366 penalty is *not*
strictly greater than it — a missing date ranks *better* (sooner) than a
parsed 31 December. -/
theorem C1_counterexample :
    parse_delivery_date "31 Ara" = 372 ∧ ¬ (PENALTY_SCORE > parse_delivery_date "31 Ara") := by
  constructor <;> decide

/-- **C1 amended.**  The 366 penalty for a missing or unparseable
delivery string is strictly greater than the ordinal of a successfully
parsed date with a recognised month and day at most 31 *except* for
December dates with day 25 or later: 25 December ties the penalty at 366
and 26-31 December exceed it. -/
theorem C1_penalty_vs_parsed (s : String) (day : ℕ) (letters : List Char)
    (m : ℕ)
    (hs : ¬ (pyStrip s.toList = [] ∨ pyStrip s.toList = "nan".toList
      ∨ pyStrip s.toList = "N/A".toList))
    (hre : reSearchDM (pyStrip s.toList) = some (day, letters))
    (hm : monthMap (cap3 letters) = some m)
    (hday : day ≤ 31) :
    (PENALTY_SCORE > parse_delivery_date s ↔ ¬ (m = 12 ∧ 25 ≤ day)) := by
  rw [parse_delivery_date_known s day letters m hs hre hm]
  obtain ⟨h1, h2⟩ := monthMap_bounds _ _ hm
  unfold PENALTY_SCORE
  omega

/-- Witness for the amended C1: `"14 Kas"` (14 November) scores
`(11 - 1) * 31 + 14 = 324`, and the penalty is strictly greater. -/
theorem C1_penalty_vs_parsed_witness :
    (PENALTY_SCORE > parse_delivery_date "14 Kas" ↔ ¬ ((11 : ℕ) = 12 ∧ 25 ≤ 14)) := by
  exact C1_penalty_vs_parsed "14 Kas" 14 ['K', 'a', 's'] 11
    (by decide) (by decide) (by decide) (by decide)

/-- **C10.**  When the regex finds a digit group and a letter group but
the capitalised 3-letter prefix of the letters is not a known month
abbreviation, `month_map.get(month_abbr, 12)` defaults the month to
December and the parser returns `(12 - 1) * 31 + day` instead of the 366
penalty; concretely, the malformed `"5 Xyz"` (score 346) ranks strictly
better (sooner) than the genuine late-year `"20 Ara"` (20 December,
score 361). -/
theorem C10_unknown_month_defaults_to_december (s : String) (day : ℕ)
    (letters : List Char)
    (hs : ¬ (pyStrip s.toList = [] ∨ pyStrip s.toList = "nan".toList
      ∨ pyStrip s.toList = "N/A".toList))
    (hre : reSearchDM (pyStrip s.toList) = some (day, letters))
    (hm : monthMap (cap3 letters) = none) :
    parse_delivery_date s = (12 - 1) * 31 + day
    ∧ parse_delivery_date "5 Xyz" < parse_delivery_date "20 Ara" := by
  constructor
  · unfold parse_delivery_date
    rw [if_neg hs, hre]
    change ((monthMap (cap3 letters)).getD 12 - 1) * 31 + day = _
    rw [hm, Option.getD_none]
  · decide

/-- Witness for C10: `"7 Qqq"` has an unknown letter group and scores
`(12 - 1) * 31 + 7 = 348`. -/
theorem C10_unknown_month_defaults_to_december_witness :
    parse_delivery_date "7 Qqq" = (12 - 1) * 31 + 7
    ∧ parse_delivery_date "5 Xyz" < parse_delivery_date "20 Ara" := by
  exact C10_unknown_month_defaults_to_december "7 Qqq" 7 ['Q', 'q', 'q']
    (by decide) (by decide) (by decide)

/-! ## Shared evaluation and unfolding lemmas for the ranker -/

theorem clean_200 : clean_turkish_price "200 TL" = some 200 := by
  norm_num +decide [clean_turkish_price, pyStrip, replaceList, replaceFuel, isPrefixList,
    pyFloat, parseExpPart, floatVal, applyExp, pow10, digitsToNat, digitVal]

theorem clean_100 : clean_turkish_price "100 TL" = some 100 := by
  norm_num +decide [clean_turkish_price, pyStrip, replaceList, replaceFuel, isPrefixList,
    pyFloat, parseExpPart, floatVal, applyExp, pow10, digitsToNat, digitVal]

theorem pdd_NA : parse_delivery_date "N/A" = 366 := by decide

theorem isEmpty_false_of_ne {rs : List ProductRecord} (h : rs ≠ []) :
    rs.isEmpty = false := by
  cases rs with
  | nil => exact absurd rfl h
  | cons a l => rfl

/-- The happy path of the ranker: on a present, non-empty record file the
result is the top 3 of the descending sort of the scored rows. -/
theorem wpr_some_eq (w : Weights) (f : ℕ → ℚ) (rs : List ProductRecord)
    (hne : rs ≠ []) :
    weighted_product_ranking w f (some rs) =
      .ok ((sortDesc (rankRows (normalizeW w) f rs)).take 3) := by
  simp [weighted_product_ranking, isEmpty_false_of_ne hne]

/-- When every price fails to parse, nothing survives the `dropna`. -/
theorem survPairs_eq_nil (rs : List ProductRecord)
    (h : ∀ r ∈ rs, clean_turkish_price r.price = none) : survPairs rs = [] := by
  rw [survPairs, List.filterMap_eq_nil_iff]
  intro r hr
  rw [h r hr]
  rfl

/-- Membership in the survivors means the price really parsed. -/
theorem survPairs_mem {rs : List ProductRecord} {p : ProductRecord × ℚ}
    (h : p ∈ survPairs rs) :
    p.1 ∈ rs ∧ clean_turkish_price p.1.price = some p.2 := by
  rw [survPairs] at h
  obtain ⟨r, hr, hmap⟩ := List.mem_filterMap.mp h
  obtain ⟨q, hq, hpq⟩ := Option.map_eq_some'.mp hmap
  cases hpq
  exact ⟨hr, hq⟩

/-! ## C5 — data-availability handling -/

/-- **C5 counterexample.**  With a present, non-empty record file whose
single record has the unparseable price `"N/A"`, the ranker returns the
empty list `.ok []` — an empty, silent result — not a failure, contrary
to the claim that the all-prices-unparseable case is reported as a
failure. -/
theorem C5_counterexample :
    weighted_product_ranking defaultWeights qid (some [recNA]) = .ok [] := by
  rw [wpr_some_eq defaultWeights qid [recNA] (by simp)]
  have hsurv : survPairs [recNA] = [] :=
    survPairs_eq_nil _ (by intro r hr; simp at hr; subst hr; rfl)
  simp [rankRows, hsurv, sortDesc, sortAsc]

/-- **C5 amended.**  A missing hand-off file and an empty record set are
reported as descriptive failures (lines 179-184), but when every
record's price is unparseable the ranker silently returns the empty
list, not a failure (the `dropna` of line 230 leaves an empty frame that
flows through scoring to an empty result). -/
theorem C5_data_availability (w : Weights) (f : ℕ → ℚ) (rs : List ProductRecord)
    (hne : rs ≠ []) (hall : ∀ r ∈ rs, clean_turkish_price r.price = none) :
    weighted_product_ranking w f none = .error "Error: Data source file not found."
    ∧ weighted_product_ranking w f (some []) = .error "Error: DataFrame is empty."
    ∧ weighted_product_ranking w f (some rs) = .ok [] := by
  refine ⟨rfl, rfl, ?_⟩
  rw [wpr_some_eq w f rs hne]
  simp [rankRows, survPairs_eq_nil rs hall, sortDesc, sortAsc]

/-- Witness for the amended C5 at a concrete weight vector, log model and
record set. -/
theorem C5_data_availability_witness :
    weighted_product_ranking defaultWeights qid none
        = .error "Error: Data source file not found."
    ∧ weighted_product_ranking defaultWeights qid (some [])
        = .error "Error: DataFrame is empty."
    ∧ weighted_product_ranking defaultWeights qid (some [recNA, recBad]) = .ok [] := by
  refine C5_data_availability defaultWeights qid [recNA, recBad] (by simp) ?_
  intro r hr
  rcases List.mem_cons.mp hr with rfl | hr
  · rfl
  · rcases List.mem_cons.mp hr with rfl | hr
    · rfl
    · simp at hr

/-! ## C6 — hard price filter -/

/-- **C6.**  A record whose price string fails `clean_turkish_price` is
absent from the ranking output whatever its other fields: it never
enters the survivor set (first conjunct), and every row of a successful
ranking output is scored from some survivor (second conjunct). -/
theorem C6_unparseable_price_absent (w : Weights) (f : ℕ → ℚ)
    (rs : List ProductRecord) (r : ProductRecord)
    (hr : clean_turkish_price r.price = none) :
    (∀ p ∈ survPairs rs, p.1 ≠ r)
    ∧ ∀ out, weighted_product_ranking w f (some rs) = .ok out →
        ∀ o ∈ out, ∃ p ∈ survPairs rs,
          o = scoreRow (normalizeW w) f (mkAgg f (survPairs rs)) p := by
  constructor
  · intro p hp heq
    have := (survPairs_mem hp).2
    rw [heq, hr] at this
    exact Option.noConfusion this
  · intro out hout o ho
    have hne : rs ≠ [] := by
      intro hnil
      subst hnil
      exact Except.noConfusion hout
    rw [wpr_some_eq w f rs hne] at hout
    have hout' := Except.ok.inj hout
    subst hout'
    have ho2 : o ∈ sortDesc (rankRows (normalizeW w) f rs) := List.mem_of_mem_take ho
    have ho3 : o ∈ rankRows (normalizeW w) f rs :=
      (sortDesc_perm _).mem_iff.mp ho2
    rw [rankRows] at ho3
    obtain ⟨p, hp, hpo⟩ := List.mem_map.mp ho3
    exact ⟨p, hp, hpo.symm⟩

/-- Witness for C6: `recNA` (price `"N/A"`) next to a parseable record. -/
theorem C6_unparseable_price_absent_witness :
    clean_turkish_price recNA.price = none
    ∧ (∀ p ∈ survPairs [recA, recNA], p.1 ≠ recNA)
    ∧ ∀ out, weighted_product_ranking defaultWeights qid (some [recA, recNA]) = .ok out →
        ∀ o ∈ out, ∃ p ∈ survPairs [recA, recNA],
          o = scoreRow (normalizeW defaultWeights) qid
            (mkAgg qid (survPairs [recA, recNA])) p := by
  have h := C6_unparseable_price_absent defaultWeights qid [recA, recNA] recNA rfl
  exact ⟨rfl, h.1, h.2⟩

/-! ## C8 — weight-scaling invariance -/

/-- Scaling a positive-sum weight dictionary leaves its normalisation
unchanged. -/
theorem normalizeW_scale (c : ℚ) (w : Weights) (hc : 0 < c) (hw : 0 < totalW w) :
    normalizeW (scaleW c w) = normalizeW w := by
  have htot : totalW (scaleW c w) = c * totalW w := by
    simp only [totalW, scaleW]
    ring
  unfold normalizeW
  rw [htot, if_pos (mul_pos hc hw), if_pos hw]
  have hc0 : c ≠ 0 := ne_of_gt hc
  have hw0 : totalW w ≠ 0 := ne_of_gt hw
  simp only [scaleW, Weights.mk.injEq]
  refine ⟨?_, ?_, ?_, ?_, ?_⟩ <;> field_simp <;> ring

/-- **C8.**  For a weight dictionary with positive total, multiplying
every entry by a constant `c > 0` leaves the entire ranking result —
order and every `Final_Score` — unchanged, because lines 174-176
normalise the weights to sum to 1 before use.  (Exact equality: floats
are modelled as rationals.) -/
theorem C8_weight_scaling_invariant (c : ℚ) (w : Weights) (f : ℕ → ℚ)
    (input : Option (List ProductRecord)) (hc : 0 < c) (hw : 0 < totalW w) :
    weighted_product_ranking (scaleW c w) f input
      = weighted_product_ranking w f input := by
  unfold weighted_product_ranking
  rw [normalizeW_scale c w hc hw]

/-- Witness for C8: doubling the default weights at a concrete input. -/
theorem C8_weight_scaling_invariant_witness :
    (0 : ℚ) < 2 ∧ 0 < totalW defaultWeights
    ∧ weighted_product_ranking (scaleW 2 defaultWeights) qid (some [recA, recC])
        = weighted_product_ranking defaultWeights qid (some [recA, recC]) := by
  refine ⟨by norm_num, by norm_num [totalW, defaultWeights], ?_⟩
  exact C8_weight_scaling_invariant 2 defaultWeights qid (some [recA, recC])
    (by norm_num) (by norm_num [totalW, defaultWeights])

/-! ## C9 — top-3 selection dominance -/

/-- **C9.**  On a present, non-empty record set the ranker returns the
first 3 rows of a descending-sorted permutation of the scored rows: at
most 3 records come back, and every returned row's `Final_Score` is at
least that of every scored row that was not returned. -/
theorem C9_top3_dominance (w : Weights) (f : ℕ → ℚ) (rs : List ProductRecord)
    (hne : rs ≠ []) :
    ∃ S : List ScoredRow,
      S.Perm (rankRows (normalizeW w) f rs)
      ∧ weighted_product_ranking w f (some rs) = .ok (S.take 3)
      ∧ (S.take 3).length ≤ 3
      ∧ ∀ a ∈ S.take 3, ∀ b ∈ S.drop 3, b.finalScore ≤ a.finalScore := by
  refine ⟨sortDesc (rankRows (normalizeW w) f rs), sortDesc_perm _,
    wpr_some_eq w f rs hne, ?_, sortDesc_take_ge _ 3⟩
  simp [List.length_take]

/-- Witness for C9 at a concrete input. -/
theorem C9_top3_dominance_witness :
    ∃ S : List ScoredRow,
      S.Perm (rankRows (normalizeW defaultWeights) qid [recA, recB, recC])
      ∧ weighted_product_ranking defaultWeights qid (some [recA, recB, recC]) = .ok (S.take 3)
      ∧ (S.take 3).length ≤ 3
      ∧ ∀ a ∈ S.take 3, ∀ b ∈ S.drop 3, b.finalScore ≤ a.finalScore := by
  exact C9_top3_dominance defaultWeights qid [recA, recB, recC] (by simp)

/-! ## C2 — selection and tie order -/

/-- **C2.**  The selection is a stable descending sort by `Final_Score`
followed by `head(3)`: the result is the first 3 rows of a permutation
of the scored rows that is sorted descending, and within each class of
equal final scores the rows appear in exactly their original order
(filter-stability), so of two tied candidates the one earlier in the
input comes first in the output.  (pandas `nargsort` reverses values and
indices before the ascending argsort and reverses the indexer after,
which cancels on ties; numpy's argsort is a stable insertion sort at
this frame size.) -/
theorem C2_stable_sort_top3 (w : Weights) (f : ℕ → ℚ)
    (rs : List ProductRecord) (hne : rs ≠ []) :
    ∃ S : List ScoredRow,
      weighted_product_ranking w f (some rs) = .ok (S.take 3)
      ∧ S.Perm (rankRows (normalizeW w) f rs)
      ∧ S.Pairwise (fun a b => b.finalScore ≤ a.finalScore)
      ∧ ∀ c : ℚ, S.filter (fun r => decide (r.finalScore = c)) =
          (rankRows (normalizeW w) f rs).filter
            (fun r => decide (r.finalScore = c)) := by
  exact ⟨sortDesc (rankRows (normalizeW w) f rs), wpr_some_eq w f rs hne,
    sortDesc_perm _, sortDesc_pairwise _, fun c => sortDesc_filter _ c⟩

/-- The scored row of `recA` among `[recA, recB, recC]`. -/
def c2rowA : ScoredRow :=
  ⟨"A", 200, 0, 0, "https://x/a", "N/A", 366, 0, 0, 0, 0, 0⟩

/-- The scored row of `recB` among `[recA, recB, recC]`. -/
def c2rowB : ScoredRow :=
  ⟨"B", 200, 0, 0, "https://x/b", "N/A", 366, 0, 0, 0, 0, 0⟩

/-- The scored row of `recC` among `[recA, recB, recC]`: the cheapest
record, with `n_price = 100 / (100 + ε)` and `Final_Score` 0.4 times
that. -/
def c2rowC : ScoredRow :=
  ⟨"C", 100, 0, 0, "https://x/c", "N/A", 366,
    100000000000 / 100000000001, 0, 0, 0, 40000000000 / 100000000001⟩

theorem normalizeW_default : normalizeW defaultWeights = defaultWeights := by
  norm_num [normalizeW, totalW, defaultWeights, scaleW]

theorem survPairs_ABC :
    survPairs [recA, recB, recC] = [(recA, 200), (recB, 200), (recC, 100)] := by
  simp [survPairs, recA, recB, recC, clean_200, clean_100]

theorem mkAgg_ABC :
    mkAgg qid [(recA, 200), (recB, 200), (recC, 100)]
      = ⟨100, 200, 366, 366, 0, 0, 0, 0⟩ := by
  norm_num [mkAgg, minQ, maxQ, qid, recA, recB, recC, ratingVal, pdd_NA,
    min_def, max_def]

theorem rankRows_ABC :
    rankRows defaultWeights qid [recA, recB, recC] = [c2rowA, c2rowB, c2rowC] := by
  rw [rankRows, survPairs_ABC, mkAgg_ABC]
  norm_num [scoreRow, ratingVal, qid, eps, pdd_NA, recA, recB, recC,
    c2rowA, c2rowB, c2rowC, defaultWeights]

theorem sortDesc_ABC :
    sortDesc [c2rowA, c2rowB, c2rowC] = [c2rowC, c2rowA, c2rowB] := by
  norm_num [sortDesc, sortAsc, insertAsc, c2rowA, c2rowB, c2rowC]

/-- Witness for C2 at a concrete input, with the tie order traced
explicitly: records A and B have identical fields (equal final scores,
A first in the input) and C is cheaper; the output is `[C, A, B]` — the
tied rows keep their original order, A before B. -/
theorem C2_stable_sort_top3_witness :
    (∃ S : List ScoredRow,
      weighted_product_ranking defaultWeights qid (some [recA, recB, recC]) = .ok (S.take 3)
      ∧ S.Perm (rankRows (normalizeW defaultWeights) qid [recA, recB, recC])
      ∧ S.Pairwise (fun a b => b.finalScore ≤ a.finalScore)
      ∧ ∀ c : ℚ, S.filter (fun r => decide (r.finalScore = c)) =
          (rankRows (normalizeW defaultWeights) qid [recA, recB, recC]).filter
            (fun r => decide (r.finalScore = c)))
    ∧ weighted_product_ranking defaultWeights qid (some [recA, recB, recC])
        = .ok [c2rowC, c2rowA, c2rowB]
    ∧ c2rowA.finalScore = c2rowB.finalScore
    ∧ recA.title = "A" ∧ recB.title = "B"
    ∧ c2rowA.title = "A" ∧ c2rowB.title = "B" := by
  refine ⟨C2_stable_sort_top3 defaultWeights qid [recA, recB, recC] (by simp),
    ?_, rfl, rfl, rfl, rfl, rfl⟩
  rw [wpr_some_eq defaultWeights qid [recA, recB, recC] (by simp),
    normalizeW_default, rankRows_ABC, sortDesc_ABC]
  rfl

/-! ## C3 — tied-criterion normalisation -/

theorem foldlMin_const (c : ℚ) (l : List ℚ) (h : ∀ x ∈ l, x = c) :
    l.foldl min c = c := by
  induction l with
  | nil => rfl
  | cons y ys ih =>
    have hy : y = c := h y (List.mem_cons_self _ _)
    subst hy
    rw [List.foldl_cons, min_self]
    exact ih fun x hx => h x (List.mem_cons_of_mem _ hx)

theorem foldlMax_const (c : ℚ) (l : List ℚ) (h : ∀ x ∈ l, x = c) :
    l.foldl max c = c := by
  induction l with
  | nil => rfl
  | cons y ys ih =>
    have hy : y = c := h y (List.mem_cons_self _ _)
    subst hy
    rw [List.foldl_cons, max_self]
    exact ih fun x hx => h x (List.mem_cons_of_mem _ hx)

theorem minQ_const (c : ℚ) (l : List ℚ) (hne : l ≠ []) (h : ∀ x ∈ l, x = c) :
    minQ l = c := by
  cases l with
  | nil => exact absurd rfl hne
  | cons x xs =>
    have hx : x = c := h x (List.mem_cons_self _ _)
    subst hx
    exact foldlMin_const _ xs fun y hy => h y (List.mem_cons_of_mem _ hy)

theorem maxQ_const (c : ℚ) (l : List ℚ) (hne : l ≠ []) (h : ∀ x ∈ l, x = c) :
    maxQ l = c := by
  cases l with
  | nil => exact absurd rfl hne
  | cons x xs =>
    have hx : x = c := h x (List.mem_cons_self _ _)
    subst hx
    exact foldlMax_const _ xs fun y hy => h y (List.mem_cons_of_mem _ hy)

/-- **C3 amended.**  When every surviving record shares the same value
of one criterion, the epsilon-guarded min-max formula stays defined —
the denominator is exactly `ε ≠ 0` — but the normalised value is
exactly `0` for every tied candidate (the numerator carries no epsilon),
not a value near `1.0`. -/
theorem C3_tied_criterion_zero (w : Weights) (f : ℕ → ℚ) (rs : List ProductRecord) :
    (∀ c : ℚ, survPairs rs ≠ [] → (∀ p ∈ survPairs rs, p.2 = c) →
      (mkAgg f (survPairs rs)).pmax - (mkAgg f (survPairs rs)).pmin + eps ≠ 0
      ∧ ∀ row ∈ rankRows w f rs, row.nPrice = 0)
    ∧ (∀ c : ℚ, survPairs rs ≠ [] → (∀ p ∈ survPairs rs, ratingVal p.1 = c) →
      (mkAgg f (survPairs rs)).rmax - (mkAgg f (survPairs rs)).rmin + eps ≠ 0
      ∧ ∀ row ∈ rankRows w f rs, row.nRating = 0)
    ∧ (∀ n : ℕ, survPairs rs ≠ [] → (∀ p ∈ survPairs rs, p.1.reviews = n) →
      (mkAgg f (survPairs rs)).vmax - (mkAgg f (survPairs rs)).vmin + eps ≠ 0
      ∧ ∀ row ∈ rankRows w f rs, row.nReviews = 0)
    ∧ (∀ d : ℕ, survPairs rs ≠ [] →
        (∀ p ∈ survPairs rs, parse_delivery_date p.1.delivery = d) →
      (mkAgg f (survPairs rs)).dmax - (mkAgg f (survPairs rs)).dmin + eps ≠ 0
      ∧ ∀ row ∈ rankRows w f rs, row.nDelivery = 0) := by
  refine ⟨?_, ?_, ?_, ?_⟩
  · intro c hne hall
    have hmin : (mkAgg f (survPairs rs)).pmin = c := by
      show minQ ((survPairs rs).map fun p => p.2) = c
      refine minQ_const c _ (by simpa using hne) ?_
      intro x hx
      obtain ⟨p, hp, rfl⟩ := List.mem_map.mp hx
      exact hall p hp
    have hmax : (mkAgg f (survPairs rs)).pmax = c := by
      show maxQ ((survPairs rs).map fun p => p.2) = c
      refine maxQ_const c _ (by simpa using hne) ?_
      intro x hx
      obtain ⟨p, hp, rfl⟩ := List.mem_map.mp hx
      exact hall p hp
    refine ⟨by rw [hmax, hmin]; norm_num [eps], ?_⟩
    intro row hrow
    rw [rankRows] at hrow
    obtain ⟨p, hp, rfl⟩ := List.mem_map.mp hrow
    simp only [scoreRow]
    rw [hmax, hall p hp, sub_self, zero_div]
  · intro c hne hall
    have hmin : (mkAgg f (survPairs rs)).rmin = c := by
      show minQ ((survPairs rs).map fun p => ratingVal p.1) = c
      refine minQ_const c _ (by simpa using hne) ?_
      intro x hx
      obtain ⟨p, hp, rfl⟩ := List.mem_map.mp hx
      exact hall p hp
    have hmax : (mkAgg f (survPairs rs)).rmax = c := by
      show maxQ ((survPairs rs).map fun p => ratingVal p.1) = c
      refine maxQ_const c _ (by simpa using hne) ?_
      intro x hx
      obtain ⟨p, hp, rfl⟩ := List.mem_map.mp hx
      exact hall p hp
    refine ⟨by rw [hmax, hmin]; norm_num [eps], ?_⟩
    intro row hrow
    rw [rankRows] at hrow
    obtain ⟨p, hp, rfl⟩ := List.mem_map.mp hrow
    simp only [scoreRow]
    rw [hmin, hall p hp, sub_self, zero_div]
  · intro n hne hall
    have hmin : (mkAgg f (survPairs rs)).vmin = f n := by
      show minQ ((survPairs rs).map fun p => f p.1.reviews) = f n
      refine minQ_const (f n) _ (by simpa using hne) ?_
      intro x hx
      obtain ⟨p, hp, rfl⟩ := List.mem_map.mp hx
      rw [hall p hp]
    have hmax : (mkAgg f (survPairs rs)).vmax = f n := by
      show maxQ ((survPairs rs).map fun p => f p.1.reviews) = f n
      refine maxQ_const (f n) _ (by simpa using hne) ?_
      intro x hx
      obtain ⟨p, hp, rfl⟩ := List.mem_map.mp hx
      rw [hall p hp]
    refine ⟨by rw [hmax, hmin]; norm_num [eps], ?_⟩
    intro row hrow
    rw [rankRows] at hrow
    obtain ⟨p, hp, rfl⟩ := List.mem_map.mp hrow
    simp only [scoreRow]
    rw [hmin, hall p hp, sub_self, zero_div]
  · intro d hne hall
    have hmin : (mkAgg f (survPairs rs)).dmin = (d : ℚ) := by
      show minQ ((survPairs rs).map fun p => ((parse_delivery_date p.1.delivery : ℕ) : ℚ)) = _
      refine minQ_const (d : ℚ) _ (by simpa using hne) ?_
      intro x hx
      obtain ⟨p, hp, rfl⟩ := List.mem_map.mp hx
      rw [hall p hp]
    have hmax : (mkAgg f (survPairs rs)).dmax = (d : ℚ) := by
      show maxQ ((survPairs rs).map fun p => ((parse_delivery_date p.1.delivery : ℕ) : ℚ)) = _
      refine maxQ_const (d : ℚ) _ (by simpa using hne) ?_
      intro x hx
      obtain ⟨p, hp, rfl⟩ := List.mem_map.mp hx
      rw [hall p hp]
    refine ⟨by rw [hmax, hmin]; norm_num [eps], ?_⟩
    intro row hrow
    rw [rankRows] at hrow
    obtain ⟨p, hp, rfl⟩ := List.mem_map.mp hrow
    simp only [scoreRow]
    rw [hmax, hall p hp, sub_self, zero_div]

theorem survPairs_AB : survPairs [recA, recB] = [(recA, 200), (recB, 200)] := by
  simp [survPairs, recA, recB, clean_200]

/-- Witness for the amended C3: both records share price 200; each
survivor's `n_price` is 0 and the denominator is non-zero. -/
theorem C3_tied_criterion_zero_witness :
    (mkAgg qid (survPairs [recA, recB])).pmax
        - (mkAgg qid (survPairs [recA, recB])).pmin + eps ≠ 0
    ∧ ∀ row ∈ rankRows defaultWeights qid [recA, recB], row.nPrice = 0 := by
  refine (C3_tied_criterion_zero defaultWeights qid [recA, recB]).1 200 ?_ ?_
  · rw [survPairs_AB]
    simp
  · intro p hp
    rw [survPairs_AB] at hp
    rcases List.mem_cons.mp hp with rfl | hp
    · rfl
    · rcases List.mem_cons.mp hp with rfl | hp
      · rfl
      · simp at hp

theorem mkAgg_AB :
    mkAgg qid [(recA, 200), (recB, 200)] = ⟨200, 200, 366, 366, 0, 0, 0, 0⟩ := by
  norm_num [mkAgg, minQ, maxQ, qid, recA, recB, ratingVal, pdd_NA, min_def, max_def]

theorem rankRows_AB :
    rankRows defaultWeights qid [recA, recB] = [c2rowA, c2rowB] := by
  rw [rankRows, survPairs_AB, mkAgg_AB]
  norm_num [scoreRow, ratingVal, qid, eps, pdd_NA, recA, recB,
    c2rowA, c2rowB, defaultWeights]

/-- **C3 counterexample.**  With two records of identical price, each
record's normalised price is exactly `0` — not a value near `1.0`: the
numerator `max - price` is exactly zero while only the denominator
carries the epsilon. -/
theorem C3_counterexample :
    (rankRows defaultWeights qid [recA, recB]).map ScoredRow.nPrice = [0, 0]
    ∧ ¬ (∀ x ∈ (rankRows defaultWeights qid [recA, recB]).map ScoredRow.nPrice,
        |x - 1| < 1/2) := by
  constructor
  · rw [rankRows_AB]
    rfl
  · intro hall
    have h0 := hall 0 (by rw [rankRows_AB]; simp [c2rowA])
    norm_num at h0

end AmazonAgent
